import Mathlib

/-!
Shallow embedding of the pixel-state engine of
`src/firmware/color_control_server/color_control_server.ino`
(the color-control web server firmware of the hex acoustic panel frame).

Strings are modelled as `List Char`; the Arduino `String` helpers used by the
firmware (`trim`, `startsWith`, `indexOf`/`substring`/`remove`) are embedded as
list functions.  Machine integers are `Nat` with explicit `% 2 ^ 32` or
`% 2 ^ 24` where the C code masks or wraps.  The C library function `strtoul`
is embedded per ISO C (C99 7.20.1.4): it skips leading whitespace, accepts an
optional sign, for base 16 an optional `0x`/`0X` prefix, consumes the longest
digit run, and on a value outside the range of `unsigned long` (32 bits on the
ESP32 target) returns `ULONG_MAX`.
-/

namespace HexPanel

/-- `num_pixels` constant of the firmware (line 68). -/
def num_pixels : Nat := 132

/-- `ULONG_MAX` of the 32-bit target. -/
def ULONG_MAX : Nat := 2 ^ 32 - 1

/-- C `isspace`, the character class used by Arduino `String::trim`. -/
def isSpaceC (c : Char) : Bool :=
  c == ' ' || c == '\t' || c == '\n' || c == '\x0b' || c == '\x0c' || c == '\r'

/-- C `isxdigit`. -/
def isxdigitC (c : Char) : Bool :=
  c.isDigit || ('a' ≤ c && c ≤ 'f') || ('A' ≤ c && c ≤ 'F')

/-- Arduino `String::trim`: drop whitespace from both ends. -/
def trimC (s : List Char) : List Char :=
  ((s.dropWhile isSpaceC).reverse.dropWhile isSpaceC).reverse

/-- Arduino `String::startsWith`. -/
def startsWithC : List Char → List Char → Bool
  | _, [] => true
  | [], _ => false
  | c :: cs, p :: ps => c == p && startsWithC cs ps

/-- `isValidNumber` (lines 85-109): trim, then branch on a `#` prefix, a
`0x`/`0X` prefix, or plain decimal; the loops over the remaining characters
start at index 1 resp. 2 (`drop 1` / `drop 2`). -/
def isValidNumber (s : List Char) : Bool :=
  let v := trimC s
  if startsWithC v ['#'] then (v.drop 1).all isxdigitC
  else if startsWithC v ['0', 'x'] || startsWithC v ['0', 'X'] then
    (v.drop 2).all isxdigitC
  else v.all Char.isDigit

/-- Numeric value of a digit character (covers both decimal and hex digits). -/
def hexVal (c : Char) : Nat :=
  if c.isDigit then c.toNat - '0'.toNat
  else if 'a' ≤ c && c ≤ 'f' then c.toNat - 'a'.toNat + 10
  else if 'A' ≤ c && c ≤ 'F' then c.toNat - 'A'.toNat + 10
  else 0

/-- Value of a digit run in the given base. -/
def natOfDigits (base : Nat) (ds : List Char) : Nat :=
  ds.foldl (fun a c => a * base + hexVal c) 0

/-- Digit class accepted by `strtoul` for the given base (only 10 and 16 are
used by the firmware). -/
def isBaseDigit (base : Nat) (c : Char) : Bool :=
  if base == 16 then isxdigitC c else c.isDigit

/-- ISO C `strtoul` on a 32-bit target: skip leading whitespace, optional
sign, optional `0x`/`0X` prefix when the base is 16, longest digit run;
a value outside the range of `unsigned long` yields `ULONG_MAX`
(C99 7.20.1.4p8 - saturation, not wraparound); a minus sign negates the
converted value in the return type (7.20.1.4p5). -/
def strtoulSat (base : Nat) (s : List Char) : Nat :=
  let s1 := s.dropWhile isSpaceC
  let neg := startsWithC s1 ['-']
  let s2 := if startsWithC s1 ['-'] || startsWithC s1 ['+'] then s1.drop 1 else s1
  let s3 :=
    if base == 16 && (startsWithC s2 ['0', 'x'] || startsWithC s2 ['0', 'X']) then
      s2.drop 2
    else s2
  let v := natOfDigits base (s3.takeWhile (isBaseDigit base))
  if ULONG_MAX < v then ULONG_MAX
  else if neg then (2 ^ 32 - v) % 2 ^ 32
  else v

/-- `getNumber` (lines 112-125): `#` passes `c_str() + 1` to `strtoul` base 16,
a `0x`/`0X` token is passed whole to `strtoul` base 16 (the prefix is part of
the numeric parse), anything else goes to `strtoul` base 10. -/
def getNumber (s : List Char) : Nat :=
  if startsWithC s ['#'] then strtoulSat 16 (s.drop 1)
  else if startsWithC s ['0', 'x'] || startsWithC s ['0', 'X'] then strtoulSat 16 s
  else strtoulSat 10 s

/-- The 24-bit pixel color produced from a token wherever it is used as a
pixel color: `CRGB(color_val & 0xFFFFFF)` (lines 321, 326, 427-429, 450, 560). -/
def pixelColor (s : List Char) : Nat := getNumber s % 2 ^ 24

/-- The engine state touched by a pixel command: the in-memory strip of
24-bit colors (`CRGB strip[num_pixels]`, line 77) and the persisted blob of
32-bit color words (namespace `"pixels"`, key `"color_vals"`). -/
structure PanelState where
  strip : List Nat
  saved : List Nat

/-- Everything before the first comma and everything after it, or `none` when
the string has no comma: `values.indexOf(',')`, `substring(0, pos)`,
`remove(0, pos + 1)` of lines 515-519. -/
def splitFirst : List Char → Option (List Char × List Char)
  | [] => none
  | c :: cs =>
    if c == ',' then some ([], cs)
    else
      match splitFirst cs with
      | none => none
      | some (t, r) => some (c :: t, r)

/-- Comma-separated rendering of a token list (the shape of the
`pixelValues` form field). -/
def joinComma : List (List Char) → List Char
  | [] => []
  | [t] => t
  | t :: ts => t ++ ',' :: joinComma ts

/-- The `while ((pos = values.indexOf(',')) != -1)` loop of `handleSetPixels`
(lines 515-537).  Result: `(valid, idx, written, values)` where `written` is
the list of values stored at `pixels[0..idx-1]` and `values` is what remains
of the input when the loop exits.  The loop always terminates because every
iteration removes the first comma; the fuel argument is called with more fuel
than the input has characters, so the fuel never runs out. -/
def setPixelsLoop : Nat → List Char → Nat → List Nat → Bool × Nat × List Nat × List Char
  | 0, cs, idx, acc => (true, idx, acc, cs)
  | fuel + 1, cs, idx, acc =>
    match splitFirst cs with
    | none => (true, idx, acc, cs)
    | some (tok, rest) =>
      let tok := trimC tok
      if isValidNumber tok then
        let acc := acc ++ [getNumber tok]
        let idx := idx + 1
        if num_pixels ≤ idx then (true, idx, acc, rest)
        else setPixelsLoop fuel rest idx acc
      else (false, idx, acc, rest)

/-- `handleSetPixels` (lines 493-597) given the `pixelValues` form field.
`memset(pixels, 0, ...)` zero-fills the on-stack persist array, the loop
stores the comma-separated values, the value after the last comma is stored
at `pixels[idx]`, the strip is updated for `i = 0 .. idx`, and the whole
`pixels` array is persisted.  The write `pixels[idx] = color_val` at line 545
is performed without a bounds check; when `idx` has already reached
`num_pixels` it falls outside the `uint32_t pixels[num_pixels]` array, which
is undefined behavior, modelled as `none`.  The `Bool` of a `some` result is
`true` for the success response, `false` for the invalid-values response. -/
def handleSetPixels (input : List Char) (st : PanelState) : Option (PanelState × Bool) :=
  match setPixelsLoop (input.length + 1) input 0 [] with
  | (valid, idx, acc, values) =>
    if valid && isValidNumber values then
      if num_pixels ≤ idx then none
      else
        let pix := (acc ++ [getNumber (trimC values)]) ++
          List.replicate (num_pixels - (idx + 1)) 0
        some ({ strip := (pix.take (idx + 1)).map (fun c => c % 2 ^ 24) ++
                  st.strip.drop (idx + 1),
                saved := pix }, true)
    else some (st, false)

/-- One 8-bit channel of a linear interpolation step, truncated to an
integer and stored in an 8-bit CRGB channel.

Modelled from the spec: the interpolation primitive is FastLED's
`fill_gradient_RGB`, an external library whose source is not in `src/`;
section 4.3 prescribes linear per-channel interpolation "computed then
truncated (not rounded) to an integer". -/
def lerpChan (a b : Nat) (i n : Nat) : Nat :=
  if n = 0 then a % 256
  else (((a : Int) + ((b : Int) - (a : Int)) * (i : Int) / (n : Int)).toNat) % 256

/-- Red channel of a 24-bit color (`(hexColor >> 16) & 0xFF`, line 129). -/
def chanR (c : Nat) : Nat := c / 65536 % 256

/-- Green channel of a 24-bit color (`(hexColor >> 8) & 0xFF`, line 130). -/
def chanG (c : Nat) : Nat := c / 256 % 256

/-- Blue channel of a 24-bit color (`hexColor & 0xFF`, line 131). -/
def chanB (c : Nat) : Nat := c % 256

/-- A representative color interpolated between two colors, channel by
channel.

Modelled from the spec: see `lerpChan`. -/
def interpColor (c1 c2 : Nat) (i n : Nat) : Nat :=
  lerpChan (chanR c1) (chanR c2) i n * 65536 +
  lerpChan (chanG c1) (chanG c2) i n * 256 +
  lerpChan (chanB c1) (chanB c2) i n

/-- The `segment_count` representative colors of the gradient.

Modelled from the spec: FastLED's `fill_gradient_RGB(strip, num_segs, c1, c2,
c3)` is an external library not present in `src/`.  Section 4.3: "linearly
interpolating R, G, B independently across two half-ranges - start to mid
over the first half of the segments, mid to end over the second half (ratio
computed per segment index over segment_count)", and the documented boundary
behavior that with a single segment "the only sampled index yields start":
indices `0..n/2` ramp from the start color to the mid color, the remaining
indices ramp from the mid color to the end color. -/
def gradientColors (n : Nat) (c1 c2 c3 : Nat) : List Nat :=
  let half := n / 2
  (List.range n).map fun i =>
    if i ≤ half then interpColor c1 c2 i half
    else interpColor c2 c3 (i - half) (n - 1 - half)

/-- Exit paths of `handleGradient`. -/
inductive GradOutcome where
  | formError
  | invalidValues
  | segmentTooBig
  | divByZero
  | success (st : PanelState)

/-- Core of `handleGradient` after the four fields have been parsed
(lines 412-465): reject `leds_per_seg > num_pixels`; compute
`num_segs = (num_pixels + leds_per_seg - 1) / leds_per_seg` - an unsigned
division whose divisor is `leds_per_seg`, so reaching it with
`leds_per_seg == 0` is a division by zero (undefined behavior / hardware
exception), modelled as `GradOutcome.divByZero`; fill the segment colors;
replicate each segment color `leds_per_seg` times into the pixel array,
truncating at `num_pixels`; update every strip entry and persist the array. -/
def applyGradientCore (leds s m e : Nat) (_st : PanelState) : GradOutcome :=
  if num_pixels < leds then .segmentTooBig
  else if leds = 0 then .divByZero
  else
    let numSegs := (num_pixels + leds - 1) / leds
    let segCols := gradientColors numSegs (s % 2 ^ 24) (m % 2 ^ 24) (e % 2 ^ 24)
    let pix := ((segCols.map fun c => List.replicate leds (c % 2 ^ 24)).flatten).take num_pixels
    .success { strip := pix.map (fun c => c % 2 ^ 24), saved := pix }

/-- `handleGradient` (lines 369-490): require the four form fields
(`hasArg`), validate the four strings with `isValidNumber`, parse them with
`getNumber`, then run the core. -/
def handleGradient (ledsA sA mA eA : Option (List Char)) (st : PanelState) : GradOutcome :=
  match ledsA, sA, mA, eA with
  | some l, some s, some m, some e =>
    if isValidNumber l && isValidNumber s && isValidNumber m && isValidNumber e then
      applyGradientCore (getNumber l) (getNumber s) (getNumber m) (getNumber e) st
    else .invalidValues
  | _, _, _, _ => .formError

/-- The color-correction state: the triple handed to
`FastLED.setCorrection` and the triple persisted under namespace
`"color_corr"`. -/
structure CorrState where
  applied : Nat × Nat × Nat
  saved : Nat × Nat × Nat

/-- Responses of `handleColorCorrection`. -/
inductive CorrResp where
  | ok
  | invalidValues
  | formError

/-- `handleColorCorrection` (lines 220-295).  The guard at lines 226-228
tests `server.hasArg("correctionRed")` three times; `server.arg` of a missing
field is the empty string; the three strings are trimmed, validated with
`isValidNumber`, parsed with `getNumber` and clamped with
`constrain(-, 0, 255)` (which for an unsigned value is `min - 255`), then
applied and persisted. -/
def handleColorCorrection (redA greenA blueA : Option (List Char)) (st : CorrState) :
    CorrState × CorrResp :=
  if redA.isSome && redA.isSome && redA.isSome then
    let rs := trimC (redA.getD [])
    let gs := trimC (greenA.getD [])
    let bs := trimC (blueA.getD [])
    if isValidNumber rs && isValidNumber gs && isValidNumber bs then
      let r := min (getNumber rs) 255
      let g := min (getNumber gs) 255
      let b := min (getNumber bs) 255
      ({ applied := (r, g, b), saved := (r, g, b) }, .ok)
    else (st, .invalidValues)
  else (st, .formError)

/-! ## Helper lemmas -/

theorem digit_beq_false {c d : Char} (hc : c.isDigit = true) (hd : d.isDigit = false) :
    (c == d) = false :=
  beq_eq_false_iff_ne.mpr fun h => by subst h; rw [hc] at hd; cases hd

theorem digit_not_space {c : Char} (hc : c.isDigit = true) : isSpaceC c = false := by
  unfold isSpaceC
  simp only [Bool.or_eq_false_iff]
  refine ⟨⟨⟨⟨⟨?_, ?_⟩, ?_⟩, ?_⟩, ?_⟩, ?_⟩ <;>
    exact digit_beq_false hc (by decide)

theorem all_digit_dropWhile_space {cs : List Char} (h : cs.all Char.isDigit = true) :
    cs.dropWhile isSpaceC = cs := by
  cases cs with
  | nil => rfl
  | cons c r =>
    have hc : c.isDigit = true := List.all_eq_true.mp h c (by simp)
    simp [List.dropWhile_cons, digit_not_space hc]

theorem takeWhile_of_all {p : Char → Bool} (l : List Char) (h : l.all p = true) :
    l.takeWhile p = l := by
  induction l with
  | nil => rfl
  | cons c r ih =>
    rw [List.all_cons, Bool.and_eq_true] at h
    simp [List.takeWhile_cons, h.1, ih h.2]

theorem all_digit_not_startsWith (cs : List Char) (d : Char) (p : List Char)
    (h : cs.all Char.isDigit = true) (hd : d.isDigit = false) :
    startsWithC cs (d :: p) = false := by
  cases cs with
  | nil => rfl
  | cons c r =>
    have hc : c.isDigit = true := List.all_eq_true.mp h c (by simp)
    simp [startsWithC, digit_beq_false hc hd]

theorem all_digit_not_startsWith2 (cs : List Char) (d e : Char) (p : List Char)
    (h : cs.all Char.isDigit = true) (he : e.isDigit = false) :
    startsWithC cs (d :: e :: p) = false := by
  match cs with
  | [] => rfl
  | [c] => simp [startsWithC]
  | c :: c2 :: r =>
    have hc2 : c2.isDigit = true := List.all_eq_true.mp h c2 (by simp)
    simp [startsWithC, digit_beq_false hc2 he]

/-! ## Theorems about the parser (claims C4, C5, C6) -/

/-- C5 counterexample: the empty token is not rejected: `isValidNumber` of the
empty string is `true` (its decimal loop is vacuous) and `getNumber` parses it
to 0, contradicting the claimed `ParseError::Empty`. -/
theorem empty_token_accepted_cex : isValidNumber [] = true ∧ getNumber [] = 0 := by
  constructor <;> rfl

/-- C5 amended: every token that is empty after whitespace trimming is
accepted by the validator and parses to the color value 0 (black); it is not
rejected. -/
theorem empty_token_parses_zero (s : List Char) (h : trimC s = []) :
    isValidNumber s = true ∧ getNumber (trimC s) = 0 := by
  unfold isValidNumber
  rw [h]
  exact ⟨rfl, rfl⟩

/-- C5 witness: a whitespace-only token trims to the empty string, is
accepted, and parses to 0. -/
theorem empty_token_parses_zero_witness :
    isValidNumber [' ', '\t'] = true ∧ getNumber (trimC [' ', '\t']) = 0 :=
  empty_token_parses_zero [' ', '\t'] (by decide)

/-- C6 counterexample: the bare token `"#"` is accepted by the validator (the
hex-digit loop over the empty remainder is vacuous) and parses to 0, instead
of the claimed `ParseError::InvalidDigit`. -/
theorem hash_only_accepted_cex : isValidNumber ['#'] = true ∧ getNumber ['#'] = 0 := by
  constructor <;> rfl

/-- C6 amended: a trimmed token starting with `#` is accepted exactly when
every character after the `#` is a hexadecimal digit - so it is rejected as
soon as any non-hex character follows - but the bare token `"#"` (empty
remainder) is accepted and parses to 0. -/
theorem hash_token_validation :
    (∀ cs : List Char, trimC ('#' :: cs) = '#' :: cs →
      isValidNumber ('#' :: cs) = cs.all isxdigitC) ∧
    (isValidNumber ['#'] = true ∧ getNumber ['#'] = 0) := by
  refine ⟨fun cs h => ?_, rfl, rfl⟩
  unfold isValidNumber
  rw [h]
  simp [startsWithC]

/-- C6 witness: a non-hex character after `#` is rejected. -/
theorem hash_token_validation_witness : isValidNumber ['#', 'A', 'g'] = false := by
  have h := hash_token_validation.1 ['A', 'g'] (by decide)
  exact h.trans (by decide)

/-- C4 counterexample: for the all-digit string `"4294967296"` (decimal value
`2 ^ 32`), the pixel color produced by the firmware is `0xFFFFFF` - because
`strtoul` saturates at `ULONG_MAX` per ISO C instead of wrapping - while the
claimed value `4294967296 % 2 ^ 24` is 0. -/
theorem decimal_overflow_cex :
    pixelColor ['4', '2', '9', '4', '9', '6', '7', '2', '9', '6'] = 0xFFFFFF ∧
    (4294967296 : Nat) % 2 ^ 24 = 0 ∧ (0xFFFFFF : Nat) ≠ 0 := by
  refine ⟨by decide, by norm_num, by norm_num⟩

/-- C4 amended: for every all-digit token, the pixel color is the decimal
value masked to the low 24 bits as long as that value fits in 32 bits; at or
above `2 ^ 32`, `strtoul` returns `ULONG_MAX` (saturation per ISO C, not
wraparound), so the pixel color is `0xFFFFFF`. -/
theorem decimal_parse_masked (cs : List Char) (h : cs.all Char.isDigit = true) :
    pixelColor cs =
      if natOfDigits 10 cs < 2 ^ 32 then natOfDigits 10 cs % 2 ^ 24 else 0xFFFFFF := by
  have h1 : startsWithC cs ['#'] = false :=
    all_digit_not_startsWith cs '#' [] h (by decide)
  have h2 : startsWithC cs ['0', 'x'] = false :=
    all_digit_not_startsWith2 cs '0' 'x' [] h (by decide)
  have h3 : startsWithC cs ['0', 'X'] = false :=
    all_digit_not_startsWith2 cs '0' 'X' [] h (by decide)
  have h4 : cs.dropWhile isSpaceC = cs := all_digit_dropWhile_space h
  have h5 : startsWithC cs ['-'] = false :=
    all_digit_not_startsWith cs '-' [] h (by decide)
  have h6 : startsWithC cs ['+'] = false :=
    all_digit_not_startsWith cs '+' [] h (by decide)
  have h7 : cs.takeWhile (isBaseDigit 10) = cs := by
    have he : isBaseDigit 10 = Char.isDigit := funext fun c => rfl
    rw [he]
    exact takeWhile_of_all cs h
  simp only [pixelColor, getNumber, h1, h2, h3, Bool.false_or, Bool.false_eq_true,
    if_false]
  simp only [strtoulSat, h4, h5, h6, Bool.false_or, Bool.false_eq_true, if_false]
  norm_num [h7, ULONG_MAX]
  by_cases hv : natOfDigits 10 cs < 2 ^ 32
  · rw [if_neg (by omega), if_pos (by omega)]
  · rw [if_pos (by omega), if_neg (by omega)]

/-- C4 witness: the three-digit token `"255"` parses to pixel color 255. -/
theorem decimal_parse_masked_witness :
    pixelColor ['2', '5', '5'] =
      if natOfDigits 10 ['2', '5', '5'] < 2 ^ 32 then
        natOfDigits 10 ['2', '5', '5'] % 2 ^ 24
      else 0xFFFFFF :=
  decimal_parse_masked ['2', '5', '5'] (by decide)

/-! ## The set-pixels loop -/

theorem startsWith_one {s : List Char} {d : Char} (h : startsWithC s [d] = true) :
    ∃ r, s = d :: r := by
  cases s with
  | nil => cases h
  | cons c r =>
    simp only [startsWithC, Bool.and_true, beq_iff_eq] at h
    exact ⟨r, by rw [h]⟩

theorem startsWith_two {s : List Char} {d e : Char} (h : startsWithC s [d, e] = true) :
    ∃ r, s = d :: e :: r := by
  cases s with
  | nil => cases h
  | cons c t =>
    cases t with
    | nil => simp [startsWithC] at h
    | cons c2 r =>
      simp only [startsWithC, Bool.and_true, Bool.and_eq_true, beq_iff_eq] at h
      exact ⟨r, by rw [h.1, h.2]⟩

theorem valid_no_comma {t : List Char} (ht : trimC t = t) (hv : isValidNumber t = true) :
    ',' ∉ t := by
  intro hmem
  unfold isValidNumber at hv
  rw [ht] at hv
  by_cases h1 : startsWithC t ['#'] = true
  · rw [if_pos h1] at hv
    obtain ⟨r, rfl⟩ := startsWith_one h1
    simp only [List.drop_succ_cons, List.drop_zero] at hv
    rcases List.mem_cons.mp hmem with h | h
    · exact absurd h (by decide)
    · exact absurd (List.all_eq_true.mp hv _ h) (by decide)
  · rw [if_neg h1] at hv
    by_cases h2 : (startsWithC t ['0', 'x'] || startsWithC t ['0', 'X']) = true
    · rw [if_pos h2] at hv
      have h2or : startsWithC t ['0', 'x'] = true ∨ startsWithC t ['0', 'X'] = true := by
        simpa using h2
      rcases h2or with h2 | h2 <;>
      · obtain ⟨r, rfl⟩ := startsWith_two h2
        simp only [List.drop_succ_cons, List.drop_zero] at hv
        rcases List.mem_cons.mp hmem with h | h
        · exact absurd h (by decide)
        · rcases List.mem_cons.mp h with h | h
          · exact absurd h (by decide)
          · exact absurd (List.all_eq_true.mp hv _ h) (by decide)
    · rw [if_neg h2] at hv
      exact absurd (List.all_eq_true.mp hv _ hmem) (by decide)

theorem splitFirst_no_comma {s : List Char} (h : ',' ∉ s) : splitFirst s = none := by
  induction s with
  | nil => rfl
  | cons c r ih =>
    have hc : (c == ',') = false :=
      beq_eq_false_iff_ne.mpr (by rintro rfl; exact h (by simp))
    simp only [splitFirst, hc, Bool.false_eq_true, if_false]
    rw [ih (fun hm => h (List.mem_cons_of_mem _ hm))]

theorem splitFirst_append {t : List Char} (rest : List Char) (h : ',' ∉ t) :
    splitFirst (t ++ ',' :: rest) = some (t, rest) := by
  induction t with
  | nil => simp [splitFirst]
  | cons c t2 ih =>
    have hc : (c == ',') = false :=
      beq_eq_false_iff_ne.mpr (by rintro rfl; exact h (by simp))
    simp only [List.cons_append, splitFirst, hc, Bool.false_eq_true, if_false,
      List.append_eq]
    rw [ih (fun hm => h (List.mem_cons_of_mem _ hm))]

theorem joinComma_cons (t : List Char) (ts : List (List Char)) (h : ts ≠ []) :
    joinComma (t :: ts) = t ++ ',' :: joinComma ts := by
  cases ts with
  | nil => exact absurd rfl h
  | cons a l => rfl

/-- Running the loop on a comma-joined token list whose tokens are trimmed
and valid, with room left in the pixel array, stores every token before the
final comma and leaves the final token as the remaining string. -/
theorem setPixelsLoop_spec (ts : List (List Char)) :
    ∀ (last : List Char) (fuel idx : Nat) (acc : List Nat),
      (∀ t ∈ ts, trimC t = t ∧ isValidNumber t = true) →
      ',' ∉ last →
      idx + ts.length < num_pixels →
      (joinComma (ts ++ [last])).length < fuel →
      setPixelsLoop fuel (joinComma (ts ++ [last])) idx acc =
        (true, idx + ts.length, acc ++ ts.map getNumber, last) := by
  induction ts with
  | nil =>
    intro last fuel idx acc _ hlast _ hfuel
    simp only [List.nil_append, joinComma] at hfuel ⊢
    cases fuel with
    | zero => exact absurd hfuel (Nat.not_lt_zero _)
    | succ f =>
      simp only [setPixelsLoop, splitFirst_no_comma hlast]
      simp
  | cons t ts2 ih =>
    intro last fuel idx acc hv hlast hidx hfuel
    have hjoin : joinComma ((t :: ts2) ++ [last]) = t ++ ',' :: joinComma (ts2 ++ [last]) := by
      rw [List.cons_append]
      exact joinComma_cons _ _ (by simp)
    have hvt := hv t (by simp)
    have hcomma : ',' ∉ t := valid_no_comma hvt.1 hvt.2
    rw [hjoin] at hfuel ⊢
    cases fuel with
    | zero => exact absurd hfuel (Nat.not_lt_zero _)
    | succ f =>
      simp only [List.length_cons] at hidx
      simp only [setPixelsLoop, splitFirst_append _ hcomma, hvt.1, hvt.2, if_true]
      rw [if_neg (by omega)]
      rw [ih last f (idx + 1) (acc ++ [getNumber t])
        (fun u hu => hv u (List.mem_cons_of_mem _ hu)) hlast (by omega)
        (by simp only [List.length_append, List.length_cons] at hfuel; omega)]
      simp [Nat.add_assoc, Nat.add_comm, Nat.add_left_comm, List.append_assoc]

/-- Full characterization of a successful `handleSetPixels` run on a list of
`k` trimmed valid tokens with `1 ≤ k ≤ num_pixels`: the strip gets the `k`
parsed colors followed by its previous tail, the persisted blob gets the `k`
parsed values followed by zeros (the `memset` fill), and the success response
is sent. -/
theorem handleSetPixels_ok (ts : List (List Char)) (st : PanelState)
    (hv : ∀ t ∈ ts, trimC t = t ∧ isValidNumber t = true)
    (h1 : ts ≠ []) (h2 : ts.length ≤ num_pixels) :
    handleSetPixels (joinComma ts) st =
      some ({ strip := ts.map (fun t => getNumber t % 2 ^ 24) ++ st.strip.drop ts.length,
              saved := ts.map getNumber ++ List.replicate (num_pixels - ts.length) 0 },
            true) := by
  obtain ⟨init, last, hts⟩ : ∃ init last, ts = init ++ [last] :=
    ⟨ts.dropLast, ts.getLast h1, (List.dropLast_append_getLast h1).symm⟩
  subst hts
  have hlast := hv last (by simp)
  have hlcomma : ',' ∉ last := valid_no_comma hlast.1 hlast.2
  have hlen : init.length + 1 ≤ num_pixels := by simpa using h2
  simp only [handleSetPixels]
  rw [setPixelsLoop_spec init last _ 0 []
    (fun t ht => hv t (by simp [ht])) hlcomma (by simpa using Nat.lt_of_lt_of_le (Nat.lt_succ_self _) hlen)
    (Nat.lt_succ_self _)]
  simp only [hlast.2, Bool.and_self, if_true, List.nil_append, Nat.zero_add]
  rw [if_neg (by omega)]
  have htake :
      ((init.map getNumber ++ [getNumber (trimC last)]) ++
        List.replicate (num_pixels - (init.length + 1)) 0).take (init.length + 1) =
      init.map getNumber ++ [getNumber (trimC last)] :=
    List.take_left' (by simp)
  rw [htake, hlast.1]
  simp only [Option.some.injEq, Prod.mk.injEq, PanelState.mk.injEq]
  refine ⟨⟨?_, ?_⟩, trivial⟩
  · simp [List.map_append, List.map_map, Function.comp, List.length_append]
  · simp [List.map_append, List.append_assoc, List.length_append]

/-! ## Theorems about handleSetPixels (claims C1, C3, C9) -/

/-- C9: for every set-pixels command with a valid list of `k` colors,
`1 ≤ k ≤ num_pixels`, the in-memory pixel buffer entries at indices
`0..k-1` are overwritten with the parsed colors and every entry at index
`k..num_pixels-1` keeps exactly the value it had before the command. -/
theorem setPixels_tail_retained (ts : List (List Char)) (st : PanelState)
    (hv : ∀ t ∈ ts, trimC t = t ∧ isValidNumber t = true)
    (h1 : ts ≠ []) (h2 : ts.length ≤ num_pixels) :
    ∃ st2, handleSetPixels (joinComma ts) st = some (st2, true) ∧
      st2.strip = ts.map (fun t => getNumber t % 2 ^ 24) ++ st.strip.drop ts.length :=
  ⟨_, handleSetPixels_ok ts st hv h1 h2, rfl⟩

/-- C9 witness: the command `"1,2"` on a strip of 132 copies of 5 leaves
pixels 2..131 at 5. -/
theorem setPixels_tail_retained_witness :
    ∃ st2, handleSetPixels (joinComma [['1'], ['2']])
        { strip := List.replicate 132 5, saved := List.replicate 132 5 } =
        some (st2, true) ∧
      st2.strip = [['1'], ['2']].map (fun t => getNumber t % 2 ^ 24) ++
        (List.replicate 132 (5 : Nat)).drop 2 :=
  setPixels_tail_retained [['1'], ['2']] _ (by decide) (by decide) (by decide)

/-- C1 counterexample: the command `"7"` over a buffer previously filled
with the non-black color `0x111111` succeeds, yet at pixel index 1 the
in-memory buffer still holds `0x111111` while the persisted blob holds 0
(the `memset` fill that was never overwritten), so buffer and persisted
state do not describe the same colors when the response is emitted. -/
theorem setPixels_persist_mismatch_cex :
    (handleSetPixels ['7']
        { strip := List.replicate 132 0x111111, saved := List.replicate 132 0x111111 }).map
      (fun r => (r.2, r.1.strip.getD 1 0, r.1.saved.getD 1 0)) =
      some (true, 0x111111, 0) ∧ (0x111111 : Nat) ≠ 0 :=
  ⟨rfl, by norm_num⟩

/-- C1 amended: after a successful set-pixels command with `k` valid colors,
the persisted blob holds the `k` parsed values followed by zeros (black),
while the in-memory buffer holds the `k` parsed colors followed by its
previous tail - so buffer and persisted state agree on indices `0..k-1` but
agree on the tail `k..num_pixels-1` only when the previous buffer was black
there. -/
theorem setPixels_persist_characterization (ts : List (List Char)) (st : PanelState)
    (hv : ∀ t ∈ ts, trimC t = t ∧ isValidNumber t = true)
    (h1 : ts ≠ []) (h2 : ts.length ≤ num_pixels) :
    ∃ st2, handleSetPixels (joinComma ts) st = some (st2, true) ∧
      st2.saved = ts.map getNumber ++ List.replicate (num_pixels - ts.length) 0 ∧
      st2.strip = ts.map (fun t => getNumber t % 2 ^ 24) ++ st.strip.drop ts.length :=
  ⟨_, handleSetPixels_ok ts st hv h1 h2, rfl, rfl⟩

/-- C1 witness: the single-token command `"7"` over an all-`0x111111`
buffer persists `7` followed by 131 zeros while the buffer keeps its
`0x111111` tail. -/
theorem setPixels_persist_characterization_witness :
    ∃ st2, handleSetPixels (joinComma [['7']])
        { strip := List.replicate 132 0x111111, saved := List.replicate 132 0x111111 } =
        some (st2, true) ∧
      st2.saved = [['7']].map getNumber ++ List.replicate (num_pixels - 1) 0 ∧
      st2.strip = [['7']].map (fun t => getNumber t % 2 ^ 24) ++
        (List.replicate 132 (0x111111 : Nat)).drop 1 :=
  setPixels_persist_characterization [['7']] _ (by decide) (by decide) (by decide)

set_option maxRecDepth 10000

/-- C3: with 133 valid comma-separated entries (one more than
`num_pixels = 132`), the parse loop stores the first 132 values and exits
with `idx = 132`; the value after the last comma still validates, so the
post-loop write `pixels[idx]` at line 545 targets `pixels[132]` - past the
end of the 132-element stack array.  The out-of-bounds write (undefined
behavior) is modelled as `none`: the excess entry is not ignored silently
and the writes do not stay within indices `0..131`. -/
theorem setPixels_overflow_write :
    handleSetPixels (joinComma (List.replicate 133 ['1']))
      { strip := List.replicate 132 0, saved := List.replicate 132 0 } = none := rfl

/-! ## Theorems about the gradient (claims C2, C8) -/

theorem lerpChan_zero (a b n : Nat) : lerpChan a b 0 n = a % 256 := by
  unfold lerpChan
  by_cases h : n = 0
  · rw [if_pos h]
  · rw [if_neg h]
    simp

theorem interpColor_start (c1 c2 n : Nat) (h : c1 < 2 ^ 24) :
    interpColor c1 c2 0 n = c1 := by
  unfold interpColor chanR chanG chanB
  rw [lerpChan_zero, lerpChan_zero, lerpChan_zero]
  omega

/-- C2: a set-gradient command whose `gradientLedsPerSegment` field parses
to 0 is not rejected by the validation in `handleGradient` - the only check
is `leds_per_seg > num_pixels`, which 0 passes - so control reaches the
segment-count division `(num_pixels + leds_per_seg - 1) / leds_per_seg`
with a zero divisor (line 422), an unsigned division by zero, contradicting
the claim that the command is rejected before that division is evaluated. -/
theorem gradient_zero_division_reached :
    handleGradient (some ['0']) (some ['1']) (some ['2']) (some ['3'])
      { strip := List.replicate num_pixels 0, saved := List.replicate num_pixels 0 } =
      .divByZero := rfl

/-- C8: a gradient command with `segment_length` equal to `num_pixels`
produces exactly one segment, and the resulting buffer (and persisted blob)
is `num_pixels` copies of the start color; the mid and end colors do not
affect any pixel. -/
theorem gradient_full_segment_start (s m e : List Char) (st : PanelState)
    (hs : isValidNumber s = true) (hm : isValidNumber m = true)
    (he : isValidNumber e = true) :
    handleGradient (some ['1', '3', '2']) (some s) (some m) (some e) st =
      .success { strip := List.replicate num_pixels (getNumber s % 2 ^ 24),
                 saved := List.replicate num_pixels (getNumber s % 2 ^ 24) } := by
  have hl : isValidNumber ['1', '3', '2'] = true := by decide
  have hg : getNumber ['1', '3', '2'] = 132 := by decide
  have hmod : getNumber s % 2 ^ 24 < 2 ^ 24 := Nat.mod_lt _ (by norm_num)
  have hmm : getNumber s % 2 ^ 24 % 2 ^ 24 = getNumber s % 2 ^ 24 :=
    Nat.mod_mod_of_dvd _ dvd_rfl
  simp only [handleGradient, hl, hs, hm, he, Bool.and_self, if_true, hg]
  simp only [applyGradientCore]
  rw [if_neg (by norm_num [num_pixels]), if_neg (by norm_num)]
  have hsegs : (num_pixels + 132 - 1) / 132 = 1 := by norm_num [num_pixels]
  rw [hsegs]
  have hgrad : gradientColors 1 (getNumber s % 2 ^ 24) (getNumber m % 2 ^ 24)
      (getNumber e % 2 ^ 24) = [getNumber s % 2 ^ 24] := by
    unfold gradientColors
    have hr1 : List.range 1 = [0] := rfl
    rw [hr1]
    simp only [List.map_cons, List.map_nil]
    rw [if_pos (by norm_num)]
    rw [interpColor_start _ _ _ hmod]
  rw [hgrad]
  simp only [List.map_cons, List.map_nil, List.flatten_cons, List.flatten_nil,
    List.append_nil, hmm]
  have htake : (List.replicate 132 (getNumber s % 2 ^ 24)).take num_pixels =
      List.replicate num_pixels (getNumber s % 2 ^ 24) := by
    rw [show num_pixels = 132 from rfl, List.take_replicate]
    norm_num
  rw [htake, List.map_replicate, hmm]

/-- C8 witness: segment length 132 with start 7, mid 8, end 9 yields 132
copies of color 7. -/
theorem gradient_full_segment_start_witness :
    handleGradient (some ['1', '3', '2']) (some ['7']) (some ['8']) (some ['9'])
      { strip := List.replicate 132 0, saved := List.replicate 132 0 } =
      .success { strip := List.replicate 132 7, saved := List.replicate 132 7 } :=
  (gradient_full_segment_start ['7'] ['8'] ['9'] _ (by decide) (by decide)
    (by decide)).trans rfl

/-! ## Theorems about color correction (claims C7, C10) -/

/-- C7: a set-correction command with `correctionGreen` absent (and the
other two fields present and valid) is not rejected: the `hasArg` guard at
lines 226-228 tests `correctionRed` three times, the missing field reads as
the empty string, which `isValidNumber` accepts and `getNumber` parses to 0,
so the command applies and persists the triple `(100, 0, 100)` - a mutation
- instead of rejecting with no mutation as claimed. -/
theorem correction_missing_field_mutates :
    handleColorCorrection (some ['1', '0', '0']) none (some ['1', '0', '0'])
      { applied := (255, 255, 255), saved := (255, 255, 255) } =
      ({ applied := (100, 0, 100), saved := (100, 0, 100) }, .ok) := rfl

/-- C10: for a set-correction command whose three fields are valid number
strings, each applied and persisted channel equals the parsed value clamped
to `[0, 255]` via `constrain` (`min - 255` for an unsigned value), so every
persisted correction byte lies in `[0, 255]`. -/
theorem correction_clamped (rt gt bt : List Char) (st : CorrState)
    (hr : isValidNumber (trimC rt) = true) (hg : isValidNumber (trimC gt) = true)
    (hb : isValidNumber (trimC bt) = true) :
    handleColorCorrection (some rt) (some gt) (some bt) st =
      ({ applied := (min (getNumber (trimC rt)) 255, min (getNumber (trimC gt)) 255,
                     min (getNumber (trimC bt)) 255),
         saved := (min (getNumber (trimC rt)) 255, min (getNumber (trimC gt)) 255,
                   min (getNumber (trimC bt)) 255) }, .ok) ∧
    min (getNumber (trimC rt)) 255 ≤ 255 ∧ min (getNumber (trimC gt)) 255 ≤ 255 ∧
    min (getNumber (trimC bt)) 255 ≤ 255 := by
  refine ⟨?_, Nat.min_le_right _ _, Nat.min_le_right _ _, Nat.min_le_right _ _⟩
  simp only [handleColorCorrection, Option.isSome_some, Bool.and_self, if_true,
    Option.getD_some, hr, hg, hb]

/-- C10 witness: `correctionRed = "300"` clamps to 255, `"0"` stays 0,
`"0xff"` parses to 255. -/
theorem correction_clamped_witness :
    handleColorCorrection (some ['3', '0', '0']) (some ['0']) (some ['0', 'x', 'f', 'f'])
      { applied := (1, 1, 1), saved := (1, 1, 1) } =
      ({ applied := (255, 0, 255), saved := (255, 0, 255) }, .ok) :=
  ((correction_clamped ['3', '0', '0'] ['0'] ['0', 'x', 'f', 'f'] _ (by decide)
    (by decide) (by decide)).1).trans rfl

end HexPanel
